import Mathlib

/-!
Verification of the conversation context manager in
`src/app/services/chat.py` (class `ChatService`).

Python strings are modelled as `List Char`; the tokenizer is an external
capability and is passed in as a function `tok : Str → Nat`; the LLM
completion is external and its reply is passed in as an argument.
The regex `(<documents>.*?</documents>)` (with DOTALL) is modelled by a
leftmost, lazy, non-overlapping scan (`findSub` / `findMatch`).
-/

namespace DocChat

abbrev Str := List Char

def lit (s : String) : Str := s.data

/-- The opening sentinel marker of the document section. -/
def openTag : Str := lit "<documents>"

/-- The closing sentinel marker of the document section. -/
def closeTag : Str := lit "</documents>"

/-- Index of the first occurrence of `pat` in `s` (leftmost match of the
regex engine's scan), if any. -/
def findSub (pat : Str) : Str → Option Nat
  | [] => if pat.isEmpty then some 0 else none
  | c :: rest =>
      if pat.isPrefixOf (c :: rest) then some 0
      else (findSub pat rest).map (· + 1)

/-- Leftmost lazy match of `<documents>.*?</documents>` in `s`:
returns `(textBefore, matchedText, textAfter)`. -/
def findMatch (s : Str) : Option (Str × Str × Str) :=
  match findSub openTag s with
  | none => none
  | some i =>
      match findSub closeTag (s.drop (i + openTag.length)) with
      | none => none
      | some j =>
          let len := openTag.length + j + closeTag.length
          some (s.take i, (s.drop i).take len, s.drop (i + len))

/-- `re.split(pattern, s)` yields exactly 3 parts iff the pattern matches
exactly once; in that case this returns `(before, after)`. -/
def splitDocs (s : Str) : Option (Str × Str) :=
  match findMatch s with
  | none => none
  | some (before, _, rest) =>
      match findMatch rest with
      | none => some (before, rest)
      | some _ => none

/-- `re.search` of the marker-pair pattern succeeds. -/
def hasPair (s : Str) : Bool := (findMatch s).isSome

/-- Python's substring test `pat in s`. -/
def containsSub (pat s : Str) : Bool := (findSub pat s).isSome

/- ### Basic facts about `findSub` -/

lemma isPrefixOf_eq_true_iff : ∀ (l₁ l₂ : Str), l₁.isPrefixOf l₂ = true ↔ l₁ <+: l₂
  | [], l₂ => by simp [List.isPrefixOf]
  | a :: as, [] => by simp [List.isPrefixOf]
  | a :: as, b :: bs => by
      simp only [List.isPrefixOf, List.cons_prefix_cons, Bool.and_eq_true, beq_iff_eq]
      exact and_congr Iff.rfl (isPrefixOf_eq_true_iff as bs)

lemma findSub_none {pat : Str} : ∀ {s : Str}, findSub pat s = none →
    ∀ i, ¬ pat <+: s.drop i := by
  intro s
  induction s with
  | nil =>
      intro h i hp
      simp only [findSub] at h
      rw [List.drop_nil] at hp
      rcases List.prefix_nil.mp hp with rfl
      simp at h
  | cons c rest ih =>
      intro h i hp
      simp only [findSub] at h
      by_cases hpre : pat.isPrefixOf (c :: rest) = true
      · rw [if_pos hpre] at h; exact Option.noConfusion h
      · rw [if_neg hpre] at h
        cases i with
        | zero =>
            rw [List.drop_zero] at hp
            exact hpre ((isPrefixOf_eq_true_iff _ _).mpr hp)
        | succ n =>
            have hnone : findSub pat rest = none := by
              cases hfr : findSub pat rest with
              | none => rfl
              | some k => rw [hfr] at h; simp at h
            exact ih hnone n (by simpa using hp)

lemma findSub_some_occ {pat : Str} : ∀ {s : Str} {i : Nat}, findSub pat s = some i →
    pat <+: s.drop i := by
  intro s
  induction s with
  | nil =>
      intro i h
      simp only [findSub] at h
      by_cases hp : pat.isEmpty
      · rw [if_pos hp] at h
        cases h
        simp [List.isEmpty_iff.mp hp]
      · rw [if_neg hp] at h; exact Option.noConfusion h
  | cons c rest ih =>
      intro i h
      simp only [findSub] at h
      by_cases hpre : pat.isPrefixOf (c :: rest) = true
      · rw [if_pos hpre] at h
        cases h
        simpa using (isPrefixOf_eq_true_iff _ _).mp hpre
      · rw [if_neg hpre] at h
        cases hfr : findSub pat rest with
        | none => rw [hfr] at h; simp at h
        | some k =>
            rw [hfr] at h
            simp only [Option.map_some'] at h
            cases h
            simpa using ih hfr

lemma findSub_some_min {pat : Str} : ∀ {s : Str} {i : Nat}, findSub pat s = some i →
    ∀ j, j < i → ¬ pat <+: s.drop j := by
  intro s
  induction s with
  | nil =>
      intro i h j hj hp
      simp only [findSub] at h
      by_cases hp' : pat.isEmpty
      · rw [if_pos hp'] at h; cases h; omega
      · rw [if_neg hp'] at h; exact Option.noConfusion h
  | cons c rest ih =>
      intro i h j hj hp
      simp only [findSub] at h
      by_cases hpre : pat.isPrefixOf (c :: rest) = true
      · rw [if_pos hpre] at h; cases h; omega
      · rw [if_neg hpre] at h
        cases hfr : findSub pat rest with
        | none => rw [hfr] at h; simp at h
        | some k =>
            rw [hfr] at h
            simp only [Option.map_some'] at h
            cases h
            cases j with
            | zero =>
                rw [List.drop_zero] at hp
                exact hpre ((isPrefixOf_eq_true_iff _ _).mpr hp)
            | succ n => exact ih hfr n (by omega) (by simpa using hp)

lemma findSub_isSome_of_occ {pat : Str} : ∀ {s : Str} {i : Nat}, pat <+: s.drop i →
    (findSub pat s).isSome := by
  intro s
  induction s with
  | nil =>
      intro i hp
      rw [List.drop_nil] at hp
      rcases List.prefix_nil.mp hp with rfl
      simp [findSub]
  | cons c rest ih =>
      intro i hp
      simp only [findSub]
      by_cases hpre : pat.isPrefixOf (c :: rest) = true
      · rw [if_pos hpre]; rfl
      · rw [if_neg hpre]
        cases i with
        | zero =>
            rw [List.drop_zero] at hp
            exact absurd ((isPrefixOf_eq_true_iff _ _).mpr hp) hpre
        | succ n =>
            have := ih (i := n) (by simpa using hp)
            cases hfr : findSub pat rest with
            | none => rw [hfr] at this; simp at this
            | some k => rfl

lemma findSub_nil' {pat : Str} (hp : pat ≠ []) : findSub pat [] = none := by
  simp [findSub, List.isEmpty_iff, hp]

lemma findSub_eq_none_iff {pat : Str} (_hp : pat ≠ []) {s : Str} :
    findSub pat s = none ↔ ∀ i, ¬ pat <+: s.drop i := by
  constructor
  · exact findSub_none
  · intro h
    cases hfs : findSub pat s with
    | none => rfl
    | some i => exact absurd (findSub_some_occ hfs) (h i)

lemma getElem?_zero_head (w : Str) : w[0]? = w.head? := by cases w <;> simp

lemma take_isPre (l : Str) (n : Nat) : l.take n <+: l :=
  ⟨l.drop n, List.take_append_drop n l⟩

lemma pre_drop {l₁ l₂ : Str} (h : l₁ <+: l₂) (j : Nat) : l₁.drop j <+: l₂.drop j := by
  obtain ⟨t, rfl⟩ := h
  exact ⟨t.drop (j - l₁.length), (List.drop_append_eq_append_drop).symm⟩

lemma pre_of_take_pre {pat w v : Str} (h : pat <+: w ++ v) (hlen : pat.length ≤ w.length) :
    pat <+: w := by
  have htake := List.prefix_iff_eq_take.mp h
  rw [List.take_append_eq_append_take, Nat.sub_eq_zero_of_le hlen, List.take_zero,
    List.append_nil] at htake
  rw [htake]
  exact take_isPre _ _

lemma span_get {pat u v : Str} {i : Nat} (hp : pat <+: (u ++ v).drop i)
    (h1 : i < u.length) (h2 : u.length < i + pat.length) :
    pat[u.length - i]? = v.head? := by
  have hdrop : (u ++ v).drop i = u.drop i ++ v := by
    rw [List.drop_append_eq_append_drop, Nat.sub_eq_zero_of_le (le_of_lt h1), List.drop_zero]
  rw [hdrop] at hp
  have hlen : (u.drop i).length = u.length - i := by simp
  have hk : u.length - i < pat.length := by omega
  have htake := List.prefix_iff_eq_take.mp hp
  rw [htake, List.getElem?_take_of_lt hk, List.getElem?_append_right (by omega),
    hlen, Nat.sub_self, getElem?_zero_head]

lemma findSub_cons_none {pat : Str} {c : Char} {s : Str}
    (hc : pat.head? ≠ some c) (hs : findSub pat s = none) :
    findSub pat (c :: s) = none := by
  have hp : pat ≠ [] := by
    rintro rfl
    cases s with
    | nil => simp [findSub] at hs
    | cons d t => simp [findSub, List.isPrefixOf] at hs
  simp only [findSub]
  have hpre : ¬ pat.isPrefixOf (c :: s) = true := by
    intro hpre
    have := (isPrefixOf_eq_true_iff _ _).mp hpre
    cases pat with
    | nil => exact hp rfl
    | cons p ps =>
        rw [List.cons_prefix_cons] at this
        exact hc (by rw [this.1]; rfl)
  rw [if_neg hpre, hs]
  rfl

lemma findSub_append_none {pat : Str} (hp : pat ≠ []) {u v : Str}
    (hu : findSub pat u = none) (hv : findSub pat v = none)
    (hspan : ∀ k, 0 < k → k < pat.length → pat[k]? ≠ v.head?) :
    findSub pat (u ++ v) = none := by
  rw [findSub_eq_none_iff hp]
  intro i hocc
  by_cases hi : u.length ≤ i
  · have hdrop : (u ++ v).drop i = v.drop (i - u.length) := by
      rw [List.drop_append_eq_append_drop, List.drop_eq_nil_of_le hi, List.nil_append]
    rw [hdrop] at hocc
    exact findSub_none hv _ hocc
  · push_neg at hi
    by_cases hfit : i + pat.length ≤ u.length
    · have hdrop : (u ++ v).drop i = u.drop i ++ v := by
        rw [List.drop_append_eq_append_drop, Nat.sub_eq_zero_of_le (le_of_lt hi),
          List.drop_zero]
      rw [hdrop] at hocc
      have : pat <+: u.drop i := pre_of_take_pre hocc (by simp; omega)
      exact findSub_none hu i this
    · push_neg at hfit
      exact hspan (u.length - i) (by omega) (by omega) (span_get hocc hi (by omega))

lemma findSub_append_exact {pat : Str} (_hp : pat ≠ []) {u v : Str}
    (hu : findSub pat u = none) (hocc : pat <+: v)
    (hspan : ∀ k, 0 < k → k < pat.length → pat[k]? ≠ v.head?) :
    findSub pat (u ++ v) = some u.length := by
  have hocc' : pat <+: (u ++ v).drop u.length := by
    rw [List.drop_left]; exact hocc
  have hsome := findSub_isSome_of_occ hocc'
  obtain ⟨i, hi⟩ := Option.isSome_iff_exists.mp hsome
  have hle : i ≤ u.length := by
    by_contra hgt
    exact findSub_some_min hi u.length (by omega) hocc'
  rcases eq_or_lt_of_le hle with heq | hlt
  · rw [hi, heq]
  · exfalso
    have hio := findSub_some_occ hi
    by_cases hfit : i + pat.length ≤ u.length
    · have hdrop : (u ++ v).drop i = u.drop i ++ v := by
        rw [List.drop_append_eq_append_drop, Nat.sub_eq_zero_of_le (le_of_lt hlt),
          List.drop_zero]
      rw [hdrop] at hio
      exact findSub_none hu i (pre_of_take_pre hio (by simp; omega))
    · push_neg at hfit
      exact hspan (u.length - i) (by omega) (by omega) (span_get hio hlt (by omega))

lemma findSub_none_of_pre {pat r s : Str} (hp : pat ≠ []) (hpre : r <+: s)
    (h : findSub pat s = none) : findSub pat r = none := by
  rw [findSub_eq_none_iff hp]
  intro i hocc
  exact findSub_none h i (hocc.trans (pre_drop hpre i))

lemma findSub_take_none {pat s : Str} {i : Nat} (hp : pat ≠ []) (h : findSub pat s = some i) :
    findSub pat (s.take i) = none := by
  rw [findSub_eq_none_iff hp]
  intro j hocc
  by_cases hj : j < i
  · exact findSub_some_min h j hj (hocc.trans (pre_drop (take_isPre s i) j))
  · rw [List.drop_eq_nil_of_le (by simp; omega)] at hocc
    exact hp (List.prefix_nil.mp hocc)

lemma findSub_drop_none {pat s : Str} (hp : pat ≠ []) (h : findSub pat s = none) (k : Nat) :
    findSub pat (s.drop k) = none := by
  rw [findSub_eq_none_iff hp]
  intro j hocc
  rw [List.drop_drop] at hocc
  exact findSub_none h _ hocc

/- ### Character facts about the two markers -/

lemma openTag_ne_nil : openTag ≠ [] := by decide
lemma closeTag_ne_nil : closeTag ≠ [] := by decide

lemma openTag_lt_only_head : ∀ k, k < openTag.length → 0 < k → openTag[k]? ≠ some '<' := by
  decide

lemma closeTag_lt_only_head : ∀ k, k < closeTag.length → 0 < k → closeTag[k]? ≠ some '<' := by
  decide

lemma openTag_no_newline : ∀ k, k < openTag.length → openTag[k]? ≠ some '\n' := by decide

lemma closeTag_no_newline : ∀ k, k < closeTag.length → closeTag[k]? ≠ some '\n' := by decide

/- ### Rewriting helpers for appended segments -/

lemma drop_len_append (a b : Str) (n : Nat) (h : n = a.length) : (a ++ b).drop n = b := by
  subst h; exact List.drop_left a b

lemma take_len_append (a b : Str) (n : Nat) (h : n = a.length) : (a ++ b).take n = a := by
  subst h; exact List.take_left a b

lemma drop_add_append (a b : Str) (n m : Nat) (h : n = a.length) :
    (a ++ b).drop (n + m) = b.drop m := by
  subst h
  rw [List.drop_append_eq_append_drop, List.drop_eq_nil_of_le (by omega), List.nil_append,
    Nat.add_sub_cancel_left]

lemma take_add_append (a b : Str) (n m : Nat) (h : n = a.length) :
    (a ++ b).take (n + m) = a ++ b.take m := by
  subst h
  rw [List.take_append_eq_append_take, List.take_of_length_le (by omega), Nat.add_sub_cancel_left]

/-- Master lemma: the leftmost lazy match of the marker pair in an assembled
system string `before ++ "<documents>" ++ mid ++ "</documents>" ++ after`,
when `before` holds no opening marker and `mid` no closing marker. -/
lemma findMatch_assembled {before mid after : Str}
    (hb : findSub openTag before = none) (hm : findSub closeTag mid = none) :
    findMatch (before ++ (openTag ++ (mid ++ (closeTag ++ after)))) =
      some (before, openTag ++ (mid ++ closeTag), after) := by
  have hhead1 : (openTag ++ (mid ++ (closeTag ++ after))).head? = some '<' := rfl
  have hhead2 : (closeTag ++ after).head? = some '<' := rfl
  have h1 : findSub openTag (before ++ (openTag ++ (mid ++ (closeTag ++ after))))
      = some before.length :=
    findSub_append_exact openTag_ne_nil hb (List.prefix_append _ _)
      (fun k hk0 hkl => by rw [hhead1]; exact openTag_lt_only_head k hkl hk0)
  have h2 : (before ++ (openTag ++ (mid ++ (closeTag ++ after)))).drop
      (before.length + openTag.length) = mid ++ (closeTag ++ after) := by
    rw [drop_add_append _ _ _ _ rfl, drop_len_append _ _ _ rfl]
  have h3 : findSub closeTag (mid ++ (closeTag ++ after)) = some mid.length :=
    findSub_append_exact closeTag_ne_nil hm (List.prefix_append _ _)
      (fun k hk0 hkl => by rw [hhead2]; exact closeTag_lt_only_head k hkl hk0)
  simp only [findMatch, h1, h2, h3]
  congr 1
  refine congrArg₂ _ ?_ (congrArg₂ _ ?_ ?_)
  · exact take_len_append _ _ _ rfl
  · rw [drop_len_append _ _ _ rfl, Nat.add_assoc, take_add_append _ _ _ _ rfl,
      take_add_append _ _ _ _ rfl, take_len_append _ _ _ rfl]
  · rw [Nat.add_assoc, drop_add_append _ _ _ _ rfl, drop_add_append _ _ _ _ rfl,
      drop_add_append _ _ _ _ rfl, drop_len_append _ _ _ rfl]

/- ### Counting marker-pair matches (the number of regex matches; `re.split`
returns `2 * count + 1` parts, so the code's `len(parts) != 3` test is
`count ≠ 1`) -/

lemma findMatch_none_nil : findMatch ([] : Str) = none := by decide

lemma findMatch_some_shape {s b m r : Str} (h : findMatch s = some (b, m, r)) :
    ∃ i j, findSub openTag s = some i ∧
      findSub closeTag (s.drop (i + openTag.length)) = some j ∧
      b = s.take i ∧ m = (s.drop i).take (openTag.length + j + closeTag.length) ∧
      r = s.drop (i + (openTag.length + j + closeTag.length)) := by
  unfold findMatch at h
  split at h
  · exact absurd h (by simp)
  · next i heq =>
      split at h
      · exact absurd h (by simp)
      · next j heq2 =>
          simp only [Option.some.injEq, Prod.mk.injEq] at h
          exact ⟨i, j, heq, heq2, h.1.symm, h.2.1.symm, h.2.2.symm⟩

lemma findMatch_rest_length {s b m r : Str} (h : findMatch s = some (b, m, r)) :
    r.length < s.length := by
  obtain ⟨i, j, h1, h2, _, _, hr⟩ := findMatch_some_shape h
  have e1 : openTag.length = 11 := rfl
  have e2 : closeTag.length = 12 := rfl
  have ho := (findSub_some_occ h1).length_le
  have hc := (findSub_some_occ h2).length_le
  simp only [List.length_drop] at ho hc
  rw [hr]
  simp only [List.length_drop]
  omega

def pairCountAux : Nat → Str → Nat
  | 0, _ => 0
  | fuel + 1, s =>
      match findMatch s with
      | none => 0
      | some (_, _, rest) => pairCountAux fuel rest + 1

/-- Number of (leftmost, lazy, non-overlapping) matches of the marker pair. -/
def pairCount (s : Str) : Nat := pairCountAux s.length s

lemma pairCountAux_stable : ∀ (f₁ : Nat) {s : Str} (f₂ : Nat), s.length ≤ f₁ → s.length ≤ f₂ →
    pairCountAux f₁ s = pairCountAux f₂ s := by
  intro f₁
  induction f₁ with
  | zero =>
      intro s f₂ h1 h2
      have hs : s = [] := List.eq_nil_of_length_eq_zero (by omega)
      subst hs
      cases f₂ with
      | zero => rfl
      | succ n => simp [pairCountAux, findMatch_none_nil]
  | succ n ih =>
      intro s f₂ h1 h2
      cases f₂ with
      | zero =>
          have hs : s = [] := List.eq_nil_of_length_eq_zero (by omega)
          subst hs
          simp [pairCountAux, findMatch_none_nil]
      | succ k =>
          simp only [pairCountAux]
          split
          · rfl
          · next b m r hfm =>
              have hlt := findMatch_rest_length hfm
              rw [ih k (by omega) (by omega)]

lemma pairCount_none {s : Str} (h : findMatch s = none) : pairCount s = 0 := by
  unfold pairCount
  cases hl : s.length with
  | zero => rfl
  | succ n => simp only [pairCountAux, h]

lemma pairCount_some {s b m r : Str} (h : findMatch s = some (b, m, r)) :
    pairCount s = pairCount r + 1 := by
  have hlt := findMatch_rest_length h
  unfold pairCount
  cases hl : s.length with
  | zero => omega
  | succ n =>
      have hln : s.length = n + 1 := hl
      simp only [pairCountAux, h]
      rw [pairCountAux_stable n r.length (by omega) (le_refl _)]

lemma splitDocs_eq_some {s b a : Str} (h : splitDocs s = some (b, a)) :
    ∃ m, findMatch s = some (b, m, a) ∧ findMatch a = none := by
  unfold splitDocs at h
  split at h
  · exact absurd h (by simp)
  · next b' m r heq =>
      split at h
      · next heq2 =>
          simp only [Option.some.injEq, Prod.mk.injEq] at h
          obtain ⟨h3, h4⟩ := h
          subst h3
          subst h4
          exact ⟨m, heq, heq2⟩
      · next t2 heq2 => exact absurd h (by simp)

lemma splitDocs_of {s b m a : Str} (h1 : findMatch s = some (b, m, a))
    (h2 : findMatch a = none) : splitDocs s = some (b, a) := by
  unfold splitDocs
  simp only [h1, h2]

lemma splitDocs_assembled {before mid after : Str}
    (hb : findSub openTag before = none) (hm : findSub closeTag mid = none)
    (ha : findMatch after = none) :
    splitDocs (before ++ (openTag ++ (mid ++ (closeTag ++ after)))) = some (before, after) :=
  splitDocs_of (findMatch_assembled hb hm) ha

lemma pairCount_one_of_split {s b a : Str} (h : splitDocs s = some (b, a)) :
    pairCount s = 1 := by
  obtain ⟨m, h1, h2⟩ := splitDocs_eq_some h
  rw [pairCount_some h1, pairCount_none h2]

lemma splitDocs_none_of_ne_one {s : Str} (h : pairCount s ≠ 1) : splitDocs s = none := by
  cases h1 : findMatch s with
  | none => unfold splitDocs; simp only [h1]
  | some t =>
      obtain ⟨b, m, r⟩ := t
      cases h2 : findMatch r with
      | some t2 => unfold splitDocs; simp only [h1, h2]
      | none => exact absurd (pairCount_one_of_split (splitDocs_of h1 h2)) h

/-!
### The data model of `ChatService` (src/app/services/chat.py)

Fields mirror the Python attributes.  `tok` stands for
`len(self.tokenizer.encode(·))`, an external deterministic capability.
-/

structure Message where
  role : Str
  content : Str
deriving DecidableEq

structure ChatService where
  system : Str
  purged_messages : List Message
  purged_messages_token_count : List Nat
  messages : List Message
  messages_token_counts : List Nat
  total_messages_tokens : Nat
  scraped_content : List (Str × Str)
  max_message_tokens : Nat
deriving DecidableEq

/-- Python-dict membership test `k in d`. -/
def containsKey (d : List (Str × Str)) (k : Str) : Bool :=
  d.any (fun p => p.1 == k)

/-- Python-dict assignment `d[k] = v`: replaces in place (keeping the key's
position) or appends at the end. -/
def dictInsert (d : List (Str × Str)) (k v : Str) : List (Str × Str) :=
  if containsKey d k then d.map (fun p => if p.1 == k then (k, v) else p)
  else d ++ [(k, v)]

/-- Python-dict deletion `del d[k]`. -/
def dictRemove (d : List (Str × Str)) (k : Str) : List (Str × Str) :=
  d.filter (fun p => !(p.1 == k))

def isPySpace (c : Char) : Bool :=
  c == ' ' || c == '\t' || c == '\n' || c == '\r' || c == '\x0b' || c == '\x0c'

/-- Python `str.rstrip()` (ASCII whitespace; enough for this code base). -/
def rstrip (s : Str) : Str := (s.reverse.dropWhile isPySpace).reverse

/-- One `<document index="i">...</document>` fragment, exactly as built by
the f-strings in `_update_system_message`. -/
def docFragment (idx : Nat) (url content : Str) : Str :=
  lit "  <document index=\"" ++ lit (Nat.repr idx) ++ lit "\">\n"
    ++ lit "    <source>" ++ url ++ lit "</source>\n"
    ++ lit "    <document_content>\n      " ++ content ++ lit "\n    </document_content>\n"
    ++ lit "  </document>"

/-- The accumulation loop of `_update_system_message`: a newline is put
before each fragment except the first (the code tests the accumulator). -/
def documentsContentAux : Str → Nat → List (Str × Str) → Str
  | acc, _, [] => acc
  | acc, idx, (url, content) :: rest =>
      let acc2 := if acc.isEmpty then acc else acc ++ lit "\n"
      documentsContentAux (acc2 ++ docFragment idx url content) (idx + 1) rest

def documentsContent (docs : List (Str × Str)) : Str := documentsContentAux [] 1 docs

inductive RenderOutcome
  | rendered
  | templateCorruption
deriving DecidableEq

/-- `_update_system_message`.  On a malformed template (`re.split` does not
give 3 parts, i.e. the pair does not match exactly once) it logs an error and
returns with no state change (`templateCorruption`).  Otherwise it rebuilds
the document section, always replaces `self.system`, and, when `messages[0]`
exists with role `system`, rewrites it and recomputes the token totals.
The token-count list is kept in lockstep with `messages` by the class; a
mismatched state would raise `IndexError` in the source, so the final
catch-all arm is unreachable from states the class constructs. -/
def updateSystemMessage (tok : Str → Nat) (s : ChatService) : ChatService × RenderOutcome :=
  match splitDocs s.system with
  | none => (s, RenderOutcome.templateCorruption)
  | some (beforeDocs, afterDocs) =>
      let dc := documentsContent s.scraped_content
      let newSystem := beforeDocs ++ openTag ++ lit "\n" ++ dc ++ lit "\n" ++ closeTag ++ afterDocs
      match s.messages, s.messages_token_counts with
      | m0 :: mrest, _c0 :: crest =>
          if m0.role = lit "system" then
            let newCounts := tok newSystem :: crest
            ({ s with system := newSystem,
                      messages := { m0 with content := newSystem } :: mrest,
                      messages_token_counts := newCounts,
                      total_messages_tokens := newCounts.sum }, RenderOutcome.rendered)
          else ({ s with system := newSystem }, RenderOutcome.rendered)
      | _, _ => ({ s with system := newSystem }, RenderOutcome.rendered)

/-- `update_context(url, content)`. -/
def update_context (tok : Str → Nat) (s : ChatService) (url content : Str) : ChatService :=
  if content.isEmpty then s
  else
    (updateSystemMessage tok
      { s with scraped_content := dictInsert s.scraped_content url content }).1

/-- `remove_url_content(url)`. -/
def remove_url_content (tok : Str → Nat) (s : ChatService) (url : Str) : ChatService :=
  if url.isEmpty then s
  else if containsKey s.scraped_content url then
    (updateSystemMessage tok
      { s with scraped_content := dictRemove s.scraped_content url }).1
  else s

/-- `clear_context()`. -/
def clear_context (tok : Str → Nat) (s : ChatService) : ChatService :=
  (updateSystemMessage tok { s with scraped_content := [] }).1

inductive ProcessOutcome
  | ok (response : Str)
  | corrupted
deriving DecidableEq

/-- The two ledger appends of `process_message` (user turn, then the
assistant reply obtained from the external LLM call). -/
def appendTurns (tok : Str → Nat) (s : ChatService) (message response : Str) : ChatService :=
  let mt := tok message
  let s1 := { s with messages := s.messages ++ [Message.mk (lit "user") message],
                     messages_token_counts := s.messages_token_counts ++ [mt],
                     total_messages_tokens := s.total_messages_tokens + mt }
  let rt := tok response
  { s1 with messages := s1.messages ++ [Message.mk (lit "assistant") response],
            messages_token_counts := s1.messages_token_counts ++ [rt],
            total_messages_tokens := s1.total_messages_tokens + rt }

/-- `process_message(message)`, with the external LLM reply passed in as
`response`.  If `re.search` finds no marker pair in `self.system`, the code
copies `messages[0].content` into `self.system` whenever `messages[0]`
exists with role `system` (without validating that content), else returns
the error string; `corrupted` models that early error return. -/
def process_message (tok : Str → Nat) (s : ChatService) (message response : Str) :
    ChatService × ProcessOutcome :=
  if hasPair s.system then (appendTurns tok s message response, ProcessOutcome.ok response)
  else
    match s.messages with
    | m0 :: _ =>
        if m0.role = lit "system" then
          (appendTurns tok { s with system := m0.content } message response,
            ProcessOutcome.ok response)
        else (s, ProcessOutcome.corrupted)
    | [] => (s, ProcessOutcome.corrupted)

/-- The `while` loop of `rolling_memory`: operates on the part of the ledger
after the two protected entries.  Arguments: running total, evictable
messages, their token counts, archive, archive counts. -/
def rollLoop (maxTok : Nat) (total : Nat) :
    List Message → List Nat → List Message → List Nat →
      Nat × List Message × List Nat × List Message × List Nat
  | tail, tailCounts, purged, purgedCounts =>
      if maxTok ≤ total then
        match tail, tailCounts with
        | m2 :: trest, c2 :: crest =>
            rollLoop maxTok (total - c2) trest crest (purged ++ [m2]) (purgedCounts ++ [c2])
        | _, _ => (total, tail, tailCounts, purged, purgedCounts)
      else (total, tail, tailCounts, purged, purgedCounts)

/-- `rolling_memory()`: pops `messages[2]`/`messages_token_counts[2]` while
the total is at or above the budget and more than two entries remain,
archiving into the purged lists. -/
def rolling_memory (s : ChatService) : ChatService :=
  match s.messages, s.messages_token_counts with
  | m0 :: m1 :: mtail, c0 :: c1 :: ctail =>
      let r := rollLoop s.max_message_tokens s.total_messages_tokens mtail ctail
        s.purged_messages s.purged_messages_token_count
      { s with total_messages_tokens := r.1,
               messages := m0 :: m1 :: r.2.1,
               messages_token_counts := c0 :: c1 :: r.2.2.1,
               purged_messages := r.2.2.2.1,
               purged_messages_token_count := r.2.2.2.2 }
  | _, _ => s

/-- `ChatService.__init__` (the tokenizer loading is external). -/
def ChatService.init (tok : Str → Nat) (system : Str) : ChatService :=
  let sys :=
    if containsSub openTag system = false ∨ containsSub closeTag system = false then
      if system.isEmpty then lit "<documents>\n</documents>"
      else rstrip system ++ lit "\n\n<documents>\n</documents>"
    else system
  if sys.isEmpty then
    { system := sys, purged_messages := [], purged_messages_token_count := [],
      messages := [], messages_token_counts := [], total_messages_tokens := 0,
      scraped_content := [], max_message_tokens := 65536 }
  else
    { system := sys, purged_messages := [], purged_messages_token_count := [],
      messages := [Message.mk (lit "system") sys], messages_token_counts := [tok sys],
      total_messages_tokens := tok sys,
      scraped_content := [], max_message_tokens := 65536 }

/-- The source hardcodes two protected leading ledger entries
(`messages.pop(2)`, `len(self.messages) <= 2`). -/
def protectedHeadCount : Nat := 2

/-- The ledger's running total equals the sum of the per-entry counts. -/
def tokenInvariant (s : ChatService) : Prop :=
  s.total_messages_tokens = s.messages_token_counts.sum

/-- One public mutating call on the service. -/
inductive ChatStep (tok : Str → Nat) : ChatService → ChatService → Prop
  | addDocument (s : ChatService) (url content : Str) :
      ChatStep tok s (update_context tok s url content)
  | removeDocument (s : ChatService) (url : Str) :
      ChatStep tok s (remove_url_content tok s url)
  | clearDocuments (s : ChatService) :
      ChatStep tok s (clear_context tok s)
  | processMessage (s : ChatService) (message response : Str) :
      ChatStep tok s (process_message tok s message response).1

/- ### Shared helper lemmas about the operations -/

lemma usm_corrupt {tok : Str → Nat} {s : ChatService} (h : pairCount s.system ≠ 1) :
    updateSystemMessage tok s = (s, RenderOutcome.templateCorruption) := by
  unfold updateSystemMessage
  simp only [splitDocs_none_of_ne_one h]

lemma ChatService.ext' : ∀ {a b : ChatService}, a.system = b.system →
    a.purged_messages = b.purged_messages →
    a.purged_messages_token_count = b.purged_messages_token_count →
    a.messages = b.messages → a.messages_token_counts = b.messages_token_counts →
    a.total_messages_tokens = b.total_messages_tokens →
    a.scraped_content = b.scraped_content →
    a.max_message_tokens = b.max_message_tokens → a = b := by
  intro a b
  cases a
  cases b
  intro h1 h2 h3 h4 h5 h6 h7 h8
  simp_all

/-- A concrete state whose system string holds no marker pair. -/
def sNoMarkers : ChatService :=
  ChatService.mk (lit "no markers here") [] [] [] [] 0 [] 65536

/-- C4: for every template string in which the document-section marker pair
occurs zero times or more than once, rendering the system message fails with
TemplateCorruptionError for that call (the early error return of
`_update_system_message`, which leaves the state untouched). -/
theorem C4_render_fails_on_bad_template (tok : Str → Nat) (s : ChatService)
    (h : pairCount s.system ≠ 1) :
    updateSystemMessage tok s = (s, RenderOutcome.templateCorruption) :=
  usm_corrupt h

theorem C4_witness :
    pairCount sNoMarkers.system ≠ 1 ∧
    updateSystemMessage List.length sNoMarkers =
      (sNoMarkers, RenderOutcome.templateCorruption) :=
  ⟨by decide, C4_render_fails_on_bad_template List.length sNoMarkers (by decide)⟩

/-- C8: removing a document whose key is absent is an idempotent no-op: the
whole state (document store, system string, ledger, token counts) is
byte-for-byte unchanged. -/
theorem C8_remove_absent_noop (tok : Str → Nat) (s : ChatService) (url : Str)
    (h : containsKey s.scraped_content url = false) :
    remove_url_content tok s url = s := by
  unfold remove_url_content
  by_cases hu : url.isEmpty
  · rw [if_pos hu]
  · rw [if_neg hu, if_neg (by simp [h])]

def sC8 : ChatService :=
  ChatService.mk (lit "sys<documents>\n</documents>") [] []
    [Message.mk (lit "system") (lit "sys<documents>\n</documents>")] [5] 5
    [(lit "a", lit "X")] 65536

theorem C8_witness :
    containsKey sC8.scraped_content (lit "b") = false ∧
    remove_url_content List.length sC8 (lit "b") = sC8 :=
  ⟨by decide, C8_remove_absent_noop List.length sC8 (lit "b") (by decide)⟩

/-- C10: when the stored system string does not contain exactly one marker
pair, `_update_system_message` returns without modifying anything; a call to
`update_context` (with nonempty content) or `clear_context` in that state
still mutates `scraped_content` first and changes nothing else, leaving the
document store and the rendered system message divergent. -/
theorem C10_corrupt_render_frame (tok : Str → Nat) (s : ChatService) (url content : Str)
    (h : pairCount s.system ≠ 1) :
    updateSystemMessage tok s = (s, RenderOutcome.templateCorruption) ∧
    (content.isEmpty = false →
      update_context tok s url content =
        { s with scraped_content := dictInsert s.scraped_content url content }) ∧
    clear_context tok s = { s with scraped_content := [] } := by
  refine ⟨usm_corrupt h, ?_, ?_⟩
  · intro hc
    unfold update_context
    rw [if_neg (by simp [hc])]
    rw [usm_corrupt
      (s := { s with scraped_content := dictInsert s.scraped_content url content }) h]
  · unfold clear_context
    rw [usm_corrupt (s := { s with scraped_content := [] }) h]

theorem C10_witness :
    pairCount sNoMarkers.system ≠ 1 ∧
    clear_context List.length sNoMarkers = { sNoMarkers with scraped_content := [] } ∧
    update_context List.length sNoMarkers (lit "u") (lit "c") =
      { sNoMarkers with
          scraped_content := dictInsert sNoMarkers.scraped_content (lit "u") (lit "c") } := by
  have h := C10_corrupt_render_frame List.length sNoMarkers (lit "u") (lit "c") (by decide)
  exact ⟨by decide, h.2.2, h.2.1 (by decide)⟩

/-- A reachable-shaped state already over the 65536-token budget, with a
valid system head and three ledger entries. -/
def sOverBudget : ChatService :=
  ChatService.mk (lit "<documents>\n</documents>")
    [] []
    [Message.mk (lit "system") (lit "<documents>\n</documents>"),
     Message.mk (lit "user") (lit "u1"), Message.mk (lit "assistant") (lit "a1")]
    [30000, 20000, 20000] 70000 [] 65536

/-- C2 (code bug): `process_message` appends the user and assistant turns and
returns without ever invoking `rolling_memory` — no call site for
`rolling_memory` exists anywhere in the repository — so after the assistant
append the total can remain at or above the budget while more than the two
protected entries are present, and no entry has been archived. -/
theorem C2_no_eviction_after_assistant_append :
    (process_message List.length sOverBudget (lit "hi") (lit "yo")).2 =
        ProcessOutcome.ok (lit "yo") ∧
    sOverBudget.max_message_tokens ≤
        (process_message List.length sOverBudget (lit "hi") (lit "yo")).1.total_messages_tokens ∧
    protectedHeadCount <
        (process_message List.length sOverBudget (lit "hi") (lit "yo")).1.messages.length ∧
    (process_message List.length sOverBudget (lit "hi") (lit "yo")).1.purged_messages = [] := by
  decide

lemma usm_invariant {tok : Str → Nat} {s : ChatService} (h : tokenInvariant s) :
    tokenInvariant (updateSystemMessage tok s).1 := by
  unfold updateSystemMessage
  split
  · exact h
  · next b a heq =>
      split
      · next m0 mrest c0 crest hm hc =>
          split
          · exact rfl
          · exact h
      · exact h

lemma appendTurns_invariant {tok : Str → Nat} {s : ChatService} (h : tokenInvariant s)
    (msg resp : Str) : tokenInvariant (appendTurns tok s msg resp) := by
  unfold appendTurns tokenInvariant at *
  simp [List.sum_append, h]
  omega

lemma step_invariant {tok : Str → Nat} {s s' : ChatService} (h : tokenInvariant s)
    (hstep : ChatStep tok s s') : tokenInvariant s' := by
  cases hstep with
  | addDocument url content =>
      unfold update_context
      split
      · exact h
      · exact usm_invariant h
  | removeDocument url =>
      unfold remove_url_content
      split
      · exact h
      · split
        · exact usm_invariant h
        · exact h
  | clearDocuments => exact usm_invariant h
  | processMessage msg resp =>
      unfold process_message
      split
      · exact appendTurns_invariant h msg resp
      · split
        · split
          · exact appendTurns_invariant h msg resp
          · exact h
        · exact h

lemma docSection_isEmpty : (lit "<documents>\n</documents>").isEmpty = false := by decide

lemma append_docSection_isEmpty (r : Str) :
    (r ++ lit "\n\n<documents>\n</documents>").isEmpty = false := by
  cases r with
  | nil => decide
  | cons c t => rfl

lemma init_invariant (tok : Str → Nat) (system : Str) :
    tokenInvariant (ChatService.init tok system) := by
  unfold ChatService.init tokenInvariant
  by_cases h1 : containsSub openTag system = false ∨ containsSub closeTag system = false <;>
    by_cases h2 : system.isEmpty = true <;>
      simp [h1, h2, docSection_isEmpty, append_docSection_isEmpty]

/-- C1: the ledger invariant `total_messages_tokens = Σ messages_token_counts`
holds at construction and is preserved by every sequence of `update_context`,
`remove_url_content`, `clear_context` and `process_message` calls, hence
holds after every call. -/
theorem C1_token_invariant (tok : Str → Nat) :
    (∀ system : Str, tokenInvariant (ChatService.init tok system)) ∧
    (∀ s s' : ChatService, tokenInvariant s →
      Relation.ReflTransGen (ChatStep tok) s s' → tokenInvariant s') := by
  refine ⟨init_invariant tok, fun s s' h hsteps => ?_⟩
  induction hsteps with
  | refl => exact h
  | tail _hab hbc ih => exact step_invariant ih hbc

theorem C1_witness :
    tokenInvariant (ChatService.init List.length (lit "hello")) ∧
    tokenInvariant (clear_context List.length (ChatService.init List.length (lit "hello"))) := by
  have h := C1_token_invariant List.length
  exact ⟨h.1 _, h.2 _ _ (h.1 _) (Relation.ReflTransGen.single (ChatStep.clearDocuments _))⟩

/-- C3 (amended): when `self.system` lacks the marker pair, `process_message`
copies `messages[0].content` into `self.system` whenever `messages[0]` exists
with role `system` — without checking that this content is itself valid — and
then appends both turns; it fails with the corruption error (appending
nothing) exactly when there is no `messages[0]` with role `system`. -/
theorem C3_restore_not_validated (tok : Str → Nat) (s : ChatService) (msg resp : Str)
    (hcorrupt : hasPair s.system = false) :
    (∀ m0 mrest, s.messages = m0 :: mrest → m0.role = lit "system" →
        process_message tok s msg resp =
          (appendTurns tok { s with system := m0.content } msg resp,
            ProcessOutcome.ok resp)) ∧
    (s.messages.head?.map Message.role ≠ some (lit "system") →
        process_message tok s msg resp = (s, ProcessOutcome.corrupted)) := by
  constructor
  · intro m0 mrest hm hrole
    unfold process_message
    rw [if_neg (by simp [hcorrupt])]
    simp only [hm]
    rw [if_pos hrole]
  · intro hns
    unfold process_message
    rw [if_neg (by simp [hcorrupt])]
    cases hm : s.messages with
    | nil => simp only
    | cons m0 t =>
        simp only
        rw [if_neg (fun hrole => hns (by rw [hm]; simp [hrole]))]

/-- A state where both the cached system string and the stored
`messages[0].content` lack the marker pair: no valid restore source exists. -/
def sC3 : ChatService :=
  ChatService.mk (lit "sys missing pair") [] []
    [Message.mk (lit "system") (lit "also missing pair")] [4] 4 [] 65536

/-- C3 counterexample: with no valid restore source (neither the cached
system string nor `messages[0].content` contains the marker pair), the call
still restores from `messages[0]`, appends both turns and reports success,
instead of failing with the corruption error and appending nothing. -/
theorem C3_counterexample :
    hasPair sC3.system = false ∧
    sC3.messages.map (fun m => hasPair m.content) = [false] ∧
    (process_message List.length sC3 (lit "m") (lit "r")).2 = ProcessOutcome.ok (lit "r") ∧
    (process_message List.length sC3 (lit "m") (lit "r")).1.messages.length = 3 := by
  decide

def sC3b : ChatService := ChatService.mk (lit "nothing") [] [] [] [] 0 [] 65536

theorem C3_witness :
    process_message List.length sC3b (lit "m") (lit "r") = (sC3b, ProcessOutcome.corrupted) :=
  (C3_restore_not_validated List.length sC3b (lit "m") (lit "r") (by decide)).2 (by decide)

/-- Specification-side rendering: one fragment per stored document, in
insertion order, carrying a 1-based index, the key as source label and the
content. -/
def fragmentsSpec : Nat → List (Str × Str) → List Str
  | _, [] => []
  | idx, (url, content) :: rest => docFragment idx url content :: fragmentsSpec (idx + 1) rest

/-- Fragments joined by single newlines. -/
def joinFragments : List Str → Str
  | [] => []
  | f :: rest => f ++ (if rest.isEmpty then [] else '\n' :: joinFragments rest)

/-- Each later fragment prefixed by a newline. -/
def preJoin (fs : List Str) : Str := (fs.map (fun f => '\n' :: f)).flatten

lemma docFragment_isEmpty (idx : Nat) (url content : Str) :
    (docFragment idx url content).isEmpty = false := rfl

lemma documentsContentAux_acc : ∀ (docs : List (Str × Str)) (idx : Nat) (acc : Str),
    acc.isEmpty = false →
    documentsContentAux acc idx docs = acc ++ preJoin (fragmentsSpec idx docs) := by
  intro docs
  induction docs with
  | nil => intro idx acc hacc; simp [documentsContentAux, fragmentsSpec, preJoin]
  | cons p rest ih =>
      intro idx acc hacc
      obtain ⟨url, content⟩ := p
      simp only [documentsContentAux]
      rw [if_neg (by simp [hacc])]
      rw [ih (idx + 1) (acc ++ lit "\n" ++ docFragment idx url content)
        (by cases acc with | nil => simp at hacc | cons c t => rfl)]
      simp [fragmentsSpec, preJoin, lit]

lemma joinFragments_cons (f : Str) (fs : List Str) :
    joinFragments (f :: fs) = f ++ preJoin fs := by
  induction fs generalizing f with
  | nil => simp [joinFragments, preJoin]
  | cons g gs ih =>
      simp only [joinFragments] at ih ⊢
      rw [ih g]
      simp [preJoin]

lemma documentsContent_eq_spec (docs : List (Str × Str)) :
    documentsContent docs = joinFragments (fragmentsSpec 1 docs) := by
  cases docs with
  | nil => rfl
  | cons p rest =>
      obtain ⟨url, content⟩ := p
      show documentsContentAux (docFragment 1 url content) 2 rest = _
      rw [documentsContentAux_acc rest 2 (docFragment 1 url content)
        (docFragment_isEmpty 1 url content)]
      simp only [fragmentsSpec]
      rw [joinFragments_cons]

lemma usm_scraped {tok : Str → Nat} (s : ChatService) :
    (updateSystemMessage tok s).1.scraped_content = s.scraped_content := by
  unfold updateSystemMessage
  split
  · rfl
  · next b a heq =>
      split
      · next m0 mrest c0 crest hm hc =>
          split
          · rfl
          · rfl
      · rfl

lemma update_context_scraped {tok : Str → Nat} (s : ChatService) {url content : Str}
    (hc : content.isEmpty = false) :
    (update_context tok s url content).scraped_content
      = dictInsert s.scraped_content url content := by
  unfold update_context
  rw [if_neg (by simp [hc])]
  rw [usm_scraped]

lemma remove_url_scraped {tok : Str → Nat} (s : ChatService) {url : Str}
    (hu : url.isEmpty = false) (hk : containsKey s.scraped_content url = true) :
    (remove_url_content tok s url).scraped_content
      = dictRemove s.scraped_content url := by
  unfold remove_url_content
  rw [if_neg (by simp [hu]), if_pos hk]
  rw [usm_scraped]

lemma dictInsert_keep_fst (k v : Str) : ∀ d : List (Str × Str),
    (d.map (fun p => if p.1 == k then (k, v) else p)).map Prod.fst = d.map Prod.fst := by
  intro d
  induction d with
  | nil => rfl
  | cons p rest ih =>
      obtain ⟨a, b⟩ := p
      by_cases hk : (a == k) = true
      · simp only [List.map_cons, ih]
        simp [hk, beq_iff_eq.mp hk]
      · simp only [List.map_cons, ih]
        simp [hk]

/-- C6: an upsert of an existing key keeps the key order unchanged; the
rendered document section is the insertion-ordered, 1-indexed fragment list
joined by newlines; and the concrete add "a", add "b", remove "a" scenario
leaves exactly the document ("b","Y"), which renders as the single fragment
with index 1 and content "Y". -/
theorem C6_document_order_round_trip (tok : Str → Nat) :
    (∀ (d : List (Str × Str)) (k v : Str), containsKey d k = true →
        (dictInsert d k v).map Prod.fst = d.map Prod.fst) ∧
    (∀ docs : List (Str × Str), documentsContent docs = joinFragments (fragmentsSpec 1 docs)) ∧
    ((remove_url_content tok
        (update_context tok (update_context tok (ChatService.init tok (lit "Intro"))
          (lit "a") (lit "X")) (lit "b") (lit "Y"))
        (lit "a")).scraped_content = [(lit "b", lit "Y")] ∧
      documentsContent [(lit "b", lit "Y")] = docFragment 1 (lit "b") (lit "Y")) := by
  refine ⟨?_, documentsContent_eq_spec, ?_, by decide⟩
  · intro d k v h
    unfold dictInsert
    rw [if_pos h]
    exact dictInsert_keep_fst k v d
  · have h0 : (ChatService.init tok (lit "Intro")).scraped_content = [] := rfl
    have h1 : (update_context tok (ChatService.init tok (lit "Intro"))
        (lit "a") (lit "X")).scraped_content = [(lit "a", lit "X")] := by
      rw [update_context_scraped _ (by decide), h0]
      decide
    have h2 : (update_context tok (update_context tok (ChatService.init tok (lit "Intro"))
        (lit "a") (lit "X")) (lit "b") (lit "Y")).scraped_content
        = [(lit "a", lit "X"), (lit "b", lit "Y")] := by
      rw [update_context_scraped _ (by decide), h1]
      decide
    rw [remove_url_scraped _ (by decide) (by rw [h2]; decide), h2]
    decide

theorem C6_witness :
    (dictInsert [(lit "a", lit "X")] (lit "a") (lit "Z")).map Prod.fst =
      [(lit "a", lit "X")].map Prod.fst :=
  (C6_document_order_round_trip List.length).1 [(lit "a", lit "X")] (lit "a") (lit "Z")
    (by decide)

lemma take_two_cons {α : Type} (a b : α) (l : List α) : (a :: b :: l).take 2 = [a, b] := rfl

lemma drop_two_cons {α : Type} (a b : α) (l : List α) : (a :: b :: l).drop 2 = l := rfl

lemma drop_two_add_cons {α : Type} (a b : α) (l : List α) (k : Nat) :
    (a :: b :: l).drop (2 + k) = l.drop k := by
  rw [Nat.add_comm]
  rfl

lemma rollLoop_spec (maxTok : Nat) : ∀ (tail : List Message) (tcs : List Nat) (total : Nat)
    (purged : List Message) (pcs : List Nat), tail.length = tcs.length →
    ∃ k, rollLoop maxTok total tail tcs purged pcs =
        (total - (tcs.take k).sum, tail.drop k, tcs.drop k,
          purged ++ tail.take k, pcs ++ tcs.take k) ∧
      (total - (tcs.take k).sum < maxTok ∨ tail.drop k = []) ∧
      (total < maxTok → k = 0) := by
  intro tail
  induction tail with
  | nil =>
      intro tcs total purged pcs hlen
      have htcs : tcs = [] := List.eq_nil_of_length_eq_zero (by simp at hlen; omega)
      subst htcs
      refine ⟨0, ?_, Or.inr rfl, fun _ => rfl⟩
      unfold rollLoop
      by_cases h : maxTok ≤ total
      · rw [if_pos h]; simp
      · rw [if_neg h]; simp
  | cons m2 trest ih =>
      intro tcs total purged pcs hlen
      cases tcs with
      | nil => simp at hlen
      | cons c2 crest =>
          by_cases h : maxTok ≤ total
          · obtain ⟨k, hk, hstop, _hzero⟩ := ih crest (total - c2) (purged ++ [m2])
              (pcs ++ [c2]) (by simpa using hlen)
            refine ⟨k + 1, ?_, ?_, fun hlt => absurd h (by omega)⟩
            · unfold rollLoop
              rw [if_pos h]
              show rollLoop maxTok (total - c2) trest crest (purged ++ [m2]) (pcs ++ [c2]) = _
              rw [hk]
              simp [Nat.sub_sub]
            · rcases hstop with hs | hs
              · left
                simpa [Nat.sub_sub] using hs
              · right
                simpa using hs
          · push_neg at h
            refine ⟨0, ?_, Or.inl (by simpa using h), fun _ => rfl⟩
            unfold rollLoop
            rw [if_neg (by omega)]
            simp

/-- C5: rolling eviction follows the FIFO reference algorithm with the
hardcoded `protectedHeadCount = 2`: it repeatedly removes exactly the entry
at index 2 (the oldest evictable) while the total is at or above the budget,
appending it to the purged archive; the two head entries are never touched;
on return either the total is under the budget or only the protected head
remains; and it does nothing when the total is already under the budget. -/
theorem C5_fifo_eviction (s : ChatService)
    (hwf : s.messages.length = s.messages_token_counts.length) :
    ∃ k,
      (rolling_memory s).messages =
          s.messages.take protectedHeadCount ++ s.messages.drop (protectedHeadCount + k) ∧
      (rolling_memory s).messages_token_counts =
          s.messages_token_counts.take protectedHeadCount ++
            s.messages_token_counts.drop (protectedHeadCount + k) ∧
      (rolling_memory s).purged_messages =
          s.purged_messages ++ (s.messages.drop protectedHeadCount).take k ∧
      (rolling_memory s).purged_messages_token_count =
          s.purged_messages_token_count ++
            (s.messages_token_counts.drop protectedHeadCount).take k ∧
      (rolling_memory s).total_messages_tokens =
          s.total_messages_tokens -
            ((s.messages_token_counts.drop protectedHeadCount).take k).sum ∧
      ((rolling_memory s).total_messages_tokens < s.max_message_tokens ∨
          (rolling_memory s).messages.length ≤ protectedHeadCount) ∧
      (s.total_messages_tokens < s.max_message_tokens → rolling_memory s = s) := by
  obtain ⟨sys, pm, pmt, msgs, mtc, tot, sc, mx⟩ := s
  simp only at hwf ⊢
  match msgs, mtc, hwf with
  | [], [], _ =>
      exact ⟨0, rfl, rfl, by simp [rolling_memory, protectedHeadCount],
        by simp [rolling_memory, protectedHeadCount],
        by simp [rolling_memory, protectedHeadCount],
        Or.inr (by simp [rolling_memory, protectedHeadCount]), fun _ => rfl⟩
  | [m0], [c0], _ =>
      exact ⟨0, rfl, rfl, by simp [rolling_memory, protectedHeadCount],
        by simp [rolling_memory, protectedHeadCount],
        by simp [rolling_memory, protectedHeadCount],
        Or.inr (by simp [rolling_memory, protectedHeadCount]), fun _ => rfl⟩
  | m0 :: m1 :: mtail, c0 :: c1 :: ctail, hwf =>
      obtain ⟨k, hk, hstop, hzero⟩ := rollLoop_spec mx mtail ctail tot pm pmt
        (by simpa using hwf)
      refine ⟨k, ?_, ?_, ?_, ?_, ?_, ?_, ?_⟩
      · show m0 :: m1 :: (rollLoop mx tot mtail ctail pm pmt).2.1 = _
        rw [hk, protectedHeadCount, take_two_cons, drop_two_add_cons]
        rfl
      · show c0 :: c1 :: (rollLoop mx tot mtail ctail pm pmt).2.2.1 = _
        rw [hk, protectedHeadCount, take_two_cons, drop_two_add_cons]
        rfl
      · show (rollLoop mx tot mtail ctail pm pmt).2.2.2.1 = _
        rw [hk, protectedHeadCount, drop_two_cons]
      · show (rollLoop mx tot mtail ctail pm pmt).2.2.2.2 = _
        rw [hk, protectedHeadCount, drop_two_cons]
      · show (rollLoop mx tot mtail ctail pm pmt).1 = _
        rw [hk, protectedHeadCount, drop_two_cons]
      · rcases hstop with hs | hs
        · left
          show (rollLoop mx tot mtail ctail pm pmt).1 < mx
          rw [hk]
          exact hs
        · right
          show (m0 :: m1 :: (rollLoop mx tot mtail ctail pm pmt).2.1).length ≤ _
          rw [hk, hs, protectedHeadCount]
          rfl
      · intro hlt
        have hk0 := hzero hlt
        subst hk0
        show ChatService.mk sys
            (rollLoop mx tot mtail ctail pm pmt).2.2.2.1
            (rollLoop mx tot mtail ctail pm pmt).2.2.2.2
            (m0 :: m1 :: (rollLoop mx tot mtail ctail pm pmt).2.1)
            (c0 :: c1 :: (rollLoop mx tot mtail ctail pm pmt).2.2.1)
            (rollLoop mx tot mtail ctail pm pmt).1 sc mx = _
        rw [hk]
        simp

def sC5 : ChatService :=
  ChatService.mk (lit "<documents>\n</documents>") [] []
    [Message.mk (lit "system") (lit "<documents>\n</documents>"),
     Message.mk (lit "user") (lit "pinned"),
     Message.mk (lit "user") (lit "q1"), Message.mk (lit "assistant") (lit "a1")]
    [30, 20, 25, 25] 100 [] 65536

theorem C5_witness : ∃ k,
    (rolling_memory sC5).messages =
        sC5.messages.take protectedHeadCount ++ sC5.messages.drop (protectedHeadCount + k) ∧
    (rolling_memory sC5).messages_token_counts =
        sC5.messages_token_counts.take protectedHeadCount ++
          sC5.messages_token_counts.drop (protectedHeadCount + k) ∧
    (rolling_memory sC5).purged_messages =
        sC5.purged_messages ++ (sC5.messages.drop protectedHeadCount).take k ∧
    (rolling_memory sC5).purged_messages_token_count =
        sC5.purged_messages_token_count ++
          (sC5.messages_token_counts.drop protectedHeadCount).take k ∧
    (rolling_memory sC5).total_messages_tokens =
        sC5.total_messages_tokens -
          ((sC5.messages_token_counts.drop protectedHeadCount).take k).sum ∧
    ((rolling_memory sC5).total_messages_tokens < sC5.max_message_tokens ∨
        (rolling_memory sC5).messages.length ≤ protectedHeadCount) ∧
    (sC5.total_messages_tokens < sC5.max_message_tokens → rolling_memory sC5 = sC5) :=
  C5_fifo_eviction sC5 (by decide)

/-- The successful branch of `_update_system_message`, as a function of the
split parts. -/
def usmApply (tok : Str → Nat) (s : ChatService) (beforeDocs afterDocs : Str) : ChatService :=
  let newSystem := beforeDocs ++ openTag ++ lit "\n" ++ documentsContent s.scraped_content
    ++ lit "\n" ++ closeTag ++ afterDocs
  match s.messages, s.messages_token_counts with
  | m0 :: mrest, _c0 :: crest =>
      if m0.role = lit "system" then
        { s with system := newSystem,
                 messages := { m0 with content := newSystem } :: mrest,
                 messages_token_counts := tok newSystem :: crest,
                 total_messages_tokens := (tok newSystem :: crest).sum }
      else { s with system := newSystem }
  | _, _ => { s with system := newSystem }

lemma usm_eq {tok : Str → Nat} {s : ChatService} {b a : Str}
    (h : splitDocs s.system = some (b, a)) :
    updateSystemMessage tok s = (usmApply tok s b a, RenderOutcome.rendered) := by
  unfold updateSystemMessage usmApply
  simp only [h]
  split
  · split
    · rfl
    · rfl
  · rfl

lemma usmApply_system {tok : Str → Nat} (s : ChatService) (b a : Str) :
    (usmApply tok s b a).system = b ++ openTag ++ lit "\n"
      ++ documentsContent s.scraped_content ++ lit "\n" ++ closeTag ++ a := by
  unfold usmApply
  split
  · split
    · rfl
    · rfl
  · rfl

lemma splitDocs_before_none {sys b a : Str} (h : splitDocs sys = some (b, a)) :
    findSub openTag b = none ∧ findMatch a = none := by
  obtain ⟨m, h1, h2⟩ := splitDocs_eq_some h
  obtain ⟨i, j, hi, hj, hbeq, _, _⟩ := findMatch_some_shape h1
  exact ⟨by rw [hbeq]; exact findSub_take_none openTag_ne_nil hi, h2⟩

lemma splitDocs_newSystem {b a D : Str}
    (hb : findSub openTag b = none) (ha : findMatch a = none)
    (hD : findSub closeTag D = none) :
    splitDocs (b ++ openTag ++ lit "\n" ++ D ++ lit "\n" ++ closeTag ++ a) = some (b, a) := by
  have h1 : findSub closeTag (D ++ lit "\n") = none :=
    findSub_append_none closeTag_ne_nil hD (by decide)
      (fun k hk0 hkl => by
        rw [show (lit "\n").head? = some '\n' from rfl]
        exact closeTag_no_newline k hkl)
  have hmid : findSub closeTag (lit "\n" ++ (D ++ lit "\n")) = none :=
    findSub_cons_none (by decide) h1
  have hassoc : b ++ openTag ++ lit "\n" ++ D ++ lit "\n" ++ closeTag ++ a
      = b ++ (openTag ++ ((lit "\n" ++ (D ++ lit "\n")) ++ (closeTag ++ a))) := by
    simp [List.append_assoc]
  rw [hassoc]
  exact splitDocs_assembled hb hmid ha

/-- C7 (amended): rendering never mutates the document store; and re-rendering
with an unchanged store is idempotent (byte-identical state) provided the
rendered document section contains no occurrence of the closing marker.  (A
document whose content contains "</documents>" breaks idempotence, see the
counterexample.) -/
theorem C7_render_pure_idempotent (tok : Str → Nat) (s : ChatService)
    (hD : containsSub closeTag (documentsContent s.scraped_content) = false) :
    (∀ t : ChatService, (updateSystemMessage tok t).1.scraped_content = t.scraped_content) ∧
    (updateSystemMessage tok (updateSystemMessage tok s).1).1
      = (updateSystemMessage tok s).1 := by
  refine ⟨fun t => usm_scraped t, ?_⟩
  have hDn : findSub closeTag (documentsContent s.scraped_content) = none := by
    cases hf : findSub closeTag (documentsContent s.scraped_content) with
    | none => rfl
    | some i => unfold containsSub at hD; rw [hf] at hD; simp at hD
  cases hsd : splitDocs s.system with
  | none =>
      have h1 : updateSystemMessage tok s = (s, RenderOutcome.templateCorruption) := by
        unfold updateSystemMessage
        simp only [hsd]
      rw [h1]
      show (updateSystemMessage tok s).1 = s
      rw [h1]
  | some p =>
      obtain ⟨b, a⟩ := p
      obtain ⟨hb, ha⟩ := splitDocs_before_none hsd
      rw [usm_eq hsd]
      show (updateSystemMessage tok (usmApply tok s b a)).1 = usmApply tok s b a
      have hsys2 : splitDocs (usmApply tok s b a).system = some (b, a) := by
        rw [usmApply_system]
        exact splitDocs_newSystem hb ha hDn
      rw [usm_eq hsys2]
      show usmApply tok (usmApply tok s b a) b a = usmApply tok s b a
      rcases s with ⟨sys, pm, pmt, msgs, mtc, tot, sc, mx⟩
      cases msgs with
      | nil => rfl
      | cons m0 mrest =>
          cases mtc with
          | nil => rfl
          | cons c0 crest =>
              rcases m0 with ⟨r0, cnt0⟩
              by_cases hrole : r0 = lit "system"
              · simp [usmApply, hrole]
              · simp [usmApply, hrole]

/-- A state holding a document whose content contains the closing marker. -/
def sC7 : ChatService :=
  ChatService.mk (lit "A<documents></documents>B") [] [] [] [] 0
    [(lit "u", lit "</documents>")] 65536

set_option maxRecDepth 40000 in
/-- C7 counterexample: with a stored document whose content contains
"</documents>", re-rendering with the unchanged store is not idempotent —
the second render produces a different system string than the first. -/
theorem C7_counterexample :
    ((updateSystemMessage List.length (updateSystemMessage List.length sC7).1).1).system
      ≠ ((updateSystemMessage List.length sC7).1).system := by
  decide

def sC7b : ChatService :=
  ChatService.mk (lit "A<documents></documents>B") [] [] [] [] 0
    [(lit "u", lit "safe content")] 65536

set_option maxRecDepth 40000 in
theorem C7_witness :
    containsSub closeTag (documentsContent sC7b.scraped_content) = false ∧
    (updateSystemMessage List.length (updateSystemMessage List.length sC7b).1).1
      = (updateSystemMessage List.length sC7b).1 :=
  ⟨by decide, (C7_render_pure_idempotent List.length sC7b (by decide)).2⟩

lemma findSub_none_of_not_contains {pat s : Str} (h : containsSub pat s = false) :
    findSub pat s = none := by
  unfold containsSub at h
  cases hf : findSub pat s with
  | none => rfl
  | some i => rw [hf] at h; simp at h

lemma rstrip_pre (s : Str) : rstrip s <+: s := by
  obtain ⟨u, hu⟩ := List.dropWhile_suffix (l := s.reverse) (p := isPySpace)
  refine ⟨u.reverse, ?_⟩
  have h2 := congrArg List.reverse hu
  rw [List.reverse_append, List.reverse_reverse] at h2
  exact h2

lemma pairCount_repairA {r : Str} (hr : findSub openTag r = none) :
    pairCount (r ++ lit "\n\n<documents>\n</documents>") = 1 := by
  have hchunks : r ++ lit "\n\n<documents>\n</documents>"
      = (r ++ lit "\n\n") ++ (openTag ++ (lit "\n" ++ (closeTag ++ ([] : Str)))) := by
    rw [show lit "\n\n<documents>\n</documents>"
        = lit "\n\n" ++ (openTag ++ (lit "\n" ++ (closeTag ++ ([] : Str)))) from by decide,
      ← List.append_assoc]
  rw [hchunks]
  have hb : findSub openTag (r ++ lit "\n\n") = none :=
    findSub_append_none openTag_ne_nil hr (by decide)
      (fun k hk0 hkl => by
        rw [show (lit "\n\n").head? = some '\n' from rfl]
        exact openTag_no_newline k hkl)
  exact pairCount_one_of_split (splitDocs_assembled hb (by decide) findMatch_none_nil)

lemma pairCount_one_of_closer_at_end {u : Str} (hu : findSub closeTag u = none)
    (hop : (findSub openTag u).isSome) :
    pairCount (u ++ closeTag) = 1 := by
  obtain ⟨i, hi⟩ := Option.isSome_iff_exists.mp hop
  have hiocc := findSub_some_occ hi
  have hile : i + openTag.length ≤ u.length := by
    have hl := hiocc.length_le
    simp only [List.length_drop] at hl
    have e1 : openTag.length = 11 := rfl
    rw [e1] at hl ⊢
    omega
  have hocc2 : openTag <+: (u ++ closeTag).drop i := by
    have hdrop : (u ++ closeTag).drop i = u.drop i ++ closeTag := by
      rw [List.drop_append_eq_append_drop, Nat.sub_eq_zero_of_le (by omega), List.drop_zero]
    rw [hdrop]
    exact hiocc.trans (List.prefix_append _ _)
  have hfind2 : findSub openTag (u ++ closeTag) = some i := by
    obtain ⟨i', hi'⟩ := Option.isSome_iff_exists.mp (findSub_isSome_of_occ hocc2)
    have h2occ := findSub_some_occ hi'
    have hle : i' ≤ i := by
      by_contra hgt
      exact findSub_some_min hi' i (by omega) hocc2
    rcases eq_or_lt_of_le hle with heq | hlt
    · rw [hi', heq]
    · exfalso
      have e1 : openTag.length = 11 := rfl
      have hi'u : i' < u.length := by omega
      by_cases hfit : i' + openTag.length ≤ u.length
      · have hdrop : (u ++ closeTag).drop i' = u.drop i' ++ closeTag := by
          rw [List.drop_append_eq_append_drop, Nat.sub_eq_zero_of_le (by omega),
            List.drop_zero]
        rw [hdrop] at h2occ
        have hocc' : openTag <+: u.drop i' := pre_of_take_pre h2occ (by simp; omega)
        exact findSub_some_min hi i' hlt hocc'
      · push_neg at hfit
        have hsg := span_get h2occ hi'u (by omega)
        rw [show closeTag.head? = some '<' from rfl] at hsg
        exact openTag_lt_only_head _ (by omega) (by omega) hsg
  have hdropO : (u ++ closeTag).drop (i + openTag.length)
      = u.drop (i + openTag.length) ++ closeTag := by
    rw [List.drop_append_eq_append_drop, Nat.sub_eq_zero_of_le hile, List.drop_zero]
  have hfind3 : findSub closeTag (u.drop (i + openTag.length) ++ closeTag)
      = some (u.drop (i + openTag.length)).length :=
    findSub_append_exact closeTag_ne_nil
      (findSub_drop_none closeTag_ne_nil hu _)
      (List.prefix_refl _)
      (fun k hk0 hkl => by
        rw [show closeTag.head? = some '<' from rfl]
        exact closeTag_lt_only_head k hkl hk0)
  have hfm : findMatch (u ++ closeTag) = some ((u ++ closeTag).take i,
      ((u ++ closeTag).drop i).take
        (openTag.length + (u.drop (i + openTag.length)).length + closeTag.length),
      (u ++ closeTag).drop
        (i + (openTag.length + (u.drop (i + openTag.length)).length + closeTag.length))) := by
    unfold findMatch
    simp only [hfind2, hdropO, hfind3]
  have hrest : (u ++ closeTag).drop
      (i + (openTag.length + (u.drop (i + openTag.length)).length + closeTag.length)) = [] := by
    have hidx : i + (openTag.length + (u.drop (i + openTag.length)).length + closeTag.length)
        = u.length + closeTag.length := by
      simp only [List.length_drop]
      have e1 : openTag.length = 11 := rfl
      have e2 : closeTag.length = 12 := rfl
      omega
    rw [hidx, drop_add_append _ _ _ _ rfl, List.drop_length]
  rw [hrest] at hfm
  rw [pairCount_some hfm, pairCount_none findMatch_none_nil]

lemma pairCount_repairB {r : Str} (hr : findSub closeTag r = none) :
    pairCount (r ++ lit "\n\n<documents>\n</documents>") = 1 := by
  have hchunks : r ++ lit "\n\n<documents>\n</documents>"
      = (r ++ lit "\n\n<documents>\n") ++ closeTag := by
    rw [show lit "\n\n<documents>\n</documents>" = lit "\n\n<documents>\n" ++ closeTag
      from by decide, ← List.append_assoc]
  rw [hchunks]
  apply pairCount_one_of_closer_at_end
  · exact findSub_append_none closeTag_ne_nil hr (by decide)
      (fun k hk0 hkl => by
        rw [show (lit "\n\n<documents>\n").head? = some '\n' from rfl]
        exact closeTag_no_newline k hkl)
  · apply findSub_isSome_of_occ (i := r.length + 2)
    rw [drop_add_append _ _ _ _ rfl]
    decide

/-- C9 (amended): if the supplied system-prompt string lacks the opening or
the closing marker substring, the constructor synthesizes an empty document
section appended to the (right-stripped) text, and the resulting system
string contains exactly one well-formed marker pair.  (A supplied string
containing both marker substrings is kept unchanged even when it does not
contain exactly one well-formed pair, see the counterexample.) -/
theorem C9_ctor_repair (tok : Str → Nat) (system : Str)
    (h : containsSub openTag system = false ∨ containsSub closeTag system = false) :
    (ChatService.init tok system).system =
      (if system.isEmpty then lit "<documents>\n</documents>"
       else rstrip system ++ lit "\n\n<documents>\n</documents>") ∧
    pairCount (ChatService.init tok system).system = 1 := by
  have hsys : (ChatService.init tok system).system
      = (if system.isEmpty then lit "<documents>\n</documents>"
         else rstrip system ++ lit "\n\n<documents>\n</documents>") := by
    unfold ChatService.init
    rw [if_pos h]
    by_cases hempty : system.isEmpty = true <;>
      simp [hempty, append_docSection_isEmpty, docSection_isEmpty]
  refine ⟨hsys, ?_⟩
  rw [hsys]
  by_cases hempty : system.isEmpty = true
  · rw [if_pos hempty]
    decide
  · rw [if_neg hempty]
    cases h with
    | inl hop =>
        exact pairCount_repairA
          (findSub_none_of_pre openTag_ne_nil (rstrip_pre system)
            (findSub_none_of_not_contains hop))
    | inr hcl =>
        exact pairCount_repairB
          (findSub_none_of_pre closeTag_ne_nil (rstrip_pre system)
            (findSub_none_of_not_contains hcl))

set_option maxRecDepth 40000 in
/-- C9 counterexample: a supplied string that contains both marker substrings
but zero well-formed pairs (the closing marker comes first) is left unchanged
by the constructor: no empty document section is appended and the constructed
instance starts with zero well-formed marker pairs, not exactly one. -/
theorem C9_counterexample :
    (ChatService.init List.length (lit "</documents>no pair<documents>")).system
        = lit "</documents>no pair<documents>" ∧
    pairCount (ChatService.init List.length (lit "</documents>no pair<documents>")).system
        = 0 := by
  decide

set_option maxRecDepth 40000 in
theorem C9_witness :
    (containsSub openTag (lit "plain prompt") = false ∨
      containsSub closeTag (lit "plain prompt") = false) ∧
    (ChatService.init List.length (lit "plain prompt")).system
        = lit "plain prompt\n\n<documents>\n</documents>" ∧
    pairCount (ChatService.init List.length (lit "plain prompt")).system = 1 := by
  have h := C9_ctor_repair List.length (lit "plain prompt") (Or.inl (by decide))
  refine ⟨Or.inl (by decide), ?_, h.2⟩
  rw [h.1]
  decide

end DocChat
